import Mathlib

/-!
Shallow embedding of the collaborative project-management backend
(`src/main.py`).  MongoDB collections are modelled as lists of typed
documents in insertion (natural) order; `find_one` is `List.find?`
(first match), `update_one` and `delete_one` act on the first match,
`delete_many` filters, and `$addToSet` appends when the value is absent.
`datetime.now(timezone.utc)` is modelled as a strictly monotone counter
`clock` carried in the state and advanced at every read.  `bson.ObjectId`
id strings are exactly 24 hexadecimal characters, decoded
case-insensitively to a numeric id; `str(ObjectId)` is the canonical
lowercase rendering.  An `HTTPException` aborts the handler; writes
performed before the exception persist, so stateful handlers return the
(possibly updated) state together with an `Except` result.
-/

namespace Backend

/-- Numeric value of one hexadecimal digit, accepting both upper and lower
case, exactly as `bson.ObjectId` does when parsing an id string. -/
def hexVal? (c : Char) : Option Nat :=
  if 48 ≤ c.toNat ∧ c.toNat ≤ 57 then some (c.toNat - 48)
  else if 97 ≤ c.toNat ∧ c.toNat ≤ 102 then some (c.toNat - 87)
  else if 65 ≤ c.toNat ∧ c.toNat ≤ 70 then some (c.toNat - 55)
  else none

/-- Accumulating hexadecimal decoder for an id string. -/
def decodeOidAux : List Char → Nat → Option Nat
  | [], acc => some acc
  | c :: cs, acc =>
    match hexVal? c with
    | some v => decodeOidAux cs (acc * 16 + v)
    | none => none

/-- `oid` in `main.py` (`bson.ObjectId(id_str)`): a well-formed id string is
exactly 24 hexadecimal characters, case-insensitive; decoding yields the
numeric identifier. `none` corresponds to the HTTP 400 "Invalid id format"
exception raised by `oid`. -/
def decodeOid (s : String) : Option Nat :=
  if s.length == 24 then decodeOidAux s.toList 0 else none

/-- Lowercase hexadecimal digit. -/
def hexDigit (n : Nat) : Char :=
  if n < 10 then Char.ofNat (48 + n) else Char.ofNat (87 + n)

/-- `str(ObjectId)` — the canonical lowercase 24-hex rendering of an id,
used by `serialize` in `main.py` to produce the public `id` field. -/
def encodeOid (n : Nat) : String :=
  String.mk ((List.range 24).map (fun i => hexDigit (n / 16 ^ (23 - i) % 16)))

/-- `HTTPException(status_code, detail)`. -/
structure HTTPError where
  status : Nat
  detail : String
  deriving DecidableEq

/-- Request body `UserIn` of `main.py`. -/
structure UserIn where
  username : String
  email : String
  emailVerified : Option Bool
  profilePic : Option String
  companyName : Option String
  role : Option String
  linkedIn : Option String
  interests : List String
  deriving DecidableEq

/-- A stored document of the `user` collection. -/
structure UserDoc where
  objId : Nat
  username : String
  email : String
  emailVerified : Option Bool
  profilePic : Option String
  companyName : Option String
  role : Option String
  linkedIn : Option String
  interests : List String
  created_at : Nat
  updated_at : Nat
  deriving DecidableEq

/-- Request body `ProjectIn` of `main.py`. -/
structure ProjectIn where
  title : String
  description : String
  category : String
  tags : List String
  attachments : List String
  createdBy : String
  members : List String
  type : Option String
  deriving DecidableEq

/-- A stored document of the `project` collection. -/
structure ProjectDoc where
  objId : Nat
  title : String
  description : String
  category : String
  tags : List String
  attachments : List String
  createdBy : String
  members : List String
  type : Option String
  created_at : Nat
  updated_at : Nat
  deriving DecidableEq

/-- Request body `ChatIn` of `main.py`. -/
structure ChatIn where
  content : String
  senderId : String
  deriving DecidableEq

/-- A stored document of the `chatmessage` collection. -/
structure ChatDoc where
  objId : Nat
  projectId : String
  senderId : String
  content : String
  timestamp : Nat
  deriving DecidableEq

/-- Request body `RequestIn` of `main.py`. -/
structure RequestIn where
  projectId : String
  senderUserId : String
  deriving DecidableEq

/-- A stored document of the `collaborationrequest` collection. -/
structure ReqDoc where
  objId : Nat
  projectId : String
  senderUserId : String
  status : String
  createdAt : Nat
  deriving DecidableEq

/-- Request body `RespondIn` of `main.py`. -/
structure RespondIn where
  decision : String
  ownerId : Option String
  deriving DecidableEq

/-- The document store: the four collections of `main.py` in natural
(insertion) order, the id generator, and the wall clock. -/
structure DB where
  users : List UserDoc
  projects : List ProjectDoc
  chats : List ChatDoc
  creqs : List ReqDoc
  nextId : Nat
  clock : Nat
  deriving DecidableEq

/-- Mongo `update_one`: rewrite the first document matching the filter. -/
def updateFirst (p : α → Bool) (f : α → α) : List α → List α
  | [] => []
  | x :: xs => if p x then f x :: xs else x :: updateFirst p f xs

/-- Mongo `delete_one`: remove the first document matching the filter. -/
def deleteFirst (p : α → Bool) : List α → List α
  | [] => []
  | x :: xs => if p x then xs else x :: deleteFirst p xs

/-- Mongo `$addToSet`: append the value when it is not already present. -/
def addToSet (v : String) (l : List String) : List String :=
  if v ∈ l then l else l ++ [v]

/-- Truthiness of a Python `Optional[str]`: `None` and the empty string are
falsy. -/
def pyTruthy : Option String → Bool
  | none => false
  | some s => !(s == "")

/-- Python whitespace as stripped by `str.strip()`: CPython's
`Py_UNICODE_ISSPACE` — the ASCII range 0x09-0x0D, the ASCII file/group/
record/unit separators 0x1C-0x1F, the space 0x20, NEL 0x85, NBSP 0xA0,
OGHAM SPACE MARK 0x1680, the Unicode space separators 0x2000-0x200A,
LINE SEPARATOR 0x2028, PARAGRAPH SEPARATOR 0x2029, NARROW NBSP 0x202F,
MEDIUM MATHEMATICAL SPACE 0x205F and IDEOGRAPHIC SPACE 0x3000. -/
def pyIsSpace (c : Char) : Bool :=
  (9 ≤ c.toNat && c.toNat ≤ 13) || (28 ≤ c.toNat && c.toNat ≤ 31) ||
  c.toNat == 32 || c.toNat == 133 || c.toNat == 160 || c.toNat == 5760 ||
  (8192 ≤ c.toNat && c.toNat ≤ 8202) || c.toNat == 8232 || c.toNat == 8233 ||
  c.toNat == 8239 || c.toNat == 8287 || c.toNat == 12288

/-- Python `str.strip()`: remove leading and trailing whitespace. -/
def pyStrip (s : String) : String :=
  String.mk (((s.toList.dropWhile pyIsSpace).reverse.dropWhile pyIsSpace).reverse)

/-- Python `str.endswith("?")`. -/
def endsWithQmark (s : String) : Bool :=
  s.toList.getLast? == some '?'

/-! ### Model of MongoDB `$regex` with options `"i"`

`list_projects` hands the raw filter strings to MongoDB as regular
expression patterns.  We model the PCRE search semantics for the
metacharacter subset actually relevant here: literal characters, `.`
(any character except a newline), the anchors `^` (start of subject) and
`$` (end of subject, or just before one final newline — PCRE's default,
DOLLAR_ENDONLY unset), and top-level alternation `|`.  A pattern using any other metacharacter is outside the
model (`parsePat` rejects it) and no theorem below depends on such a
pattern. -/

/-- One token of a parsed pattern. -/
inductive Tok where
  | lit (c : Char)
  | dot
  | bol
  | eol
  deriving DecidableEq

/-- The PCRE metacharacters; everything else is a literal. -/
def specialChars : List Char :=
  ['.', '^', '$', '|', '*', '+', '?', '(', ')', '[', ']', '\x7b', '\x7d', '\\']

/-- Tokenise one pattern character (`'|'` is handled by `parsePat`). -/
def tokOf? (c : Char) : Option Tok :=
  if c == '.' then some Tok.dot
  else if c == '^' then some Tok.bol
  else if c == '$' then some Tok.eol
  else if c ∈ specialChars then none
  else some (Tok.lit c)

/-- Parse a pattern into its top-level alternation branches. -/
def parsePat : List Char → Option (List (List Tok))
  | [] => some [[]]
  | c :: cs =>
    match parsePat cs with
    | none => none
    | some bs =>
      if c == '|' then some ([] :: bs)
      else
        match tokOf? c with
        | none => none
        | some t =>
          match bs with
          | [] => some [[t]]
          | b :: rest => some ((t :: b) :: rest)

/-- Case-insensitive character comparison (option `"i"`). -/
def charIEq (c x : Char) : Bool := c.toLower == x.toLower

/-- Match a branch at the current position;  the flag records whether the
current position is the start of the subject string (for `^`).  As in
PCRE without DOLLAR_ENDONLY (MongoDB's default), `$` asserts the end of
the subject or the position immediately before one final newline. -/
def matchHere : List Tok → Bool → List Char → Bool
  | [], _, _ => true
  | Tok.bol :: ts, atStart, s => atStart && matchHere ts atStart s
  | Tok.eol :: ts, atStart, s => (s.isEmpty || s == ['\n']) && matchHere ts atStart s
  | Tok.lit c :: ts, _, x :: s => charIEq c x && matchHere ts false s
  | Tok.lit _ :: _, _, [] => false
  | Tok.dot :: ts, _, x :: s => (!(x == '\n')) && matchHere ts false s
  | Tok.dot :: _, _, [] => false

/-- Try a branch at every position of the subject (PCRE search). -/
def searchAux (ts : List Tok) : List Char → Bool → Bool
  | [], atStart => matchHere ts atStart []
  | x :: rest, atStart => matchHere ts atStart (x :: rest) || searchAux ts rest false

/-- MongoDB `value: regex pattern, options: i` — case-insensitive
unanchored regular-expression search of `pat` in `s`. -/
def regexSearchI (pat s : String) : Bool :=
  match parsePat pat.toList with
  | some bs => bs.any (fun b => searchAux b s.toList true)
  | none => false

/-! ### Handlers of `main.py` -/

/-- Overwrite the profile fields on the login path of
`create_or_login_user` (`email` and `emailVerified` are not touched). -/
def setLoginFields (u : UserIn) (now : Nat) (d : UserDoc) : UserDoc :=
  { d with username := u.username, profilePic := u.profilePic,
           companyName := u.companyName, role := u.role,
           linkedIn := u.linkedIn, interests := u.interests,
           updated_at := now }

/-- `POST /api/users` — `create_or_login_user`. -/
def create_or_login_user (db : DB) (user : UserIn) : Option UserDoc × DB :=
  match db.users.find? (fun d => d.email == user.email) with
  | some existing =>
      let users2 := updateFirst (fun d => d.objId == existing.objId)
        (setLoginFields user db.clock) db.users
      let db2 : DB := { db with users := users2, clock := db.clock + 1 }
      (db2.users.find? (fun d => d.objId == existing.objId), db2)
  | none =>
      let newDoc : UserDoc :=
        { objId := db.nextId, username := user.username, email := user.email,
          emailVerified := user.emailVerified, profilePic := user.profilePic,
          companyName := user.companyName, role := user.role,
          linkedIn := user.linkedIn, interests := user.interests,
          created_at := db.clock, updated_at := db.clock }
      let db2 : DB := { db with users := db.users ++ [newDoc],
                                nextId := db.nextId + 1, clock := db.clock + 1 }
      (db2.users.find? (fun d => d.objId == newDoc.objId), db2)

/-- `POST /api/projects` — `create_project`.  The guard
`if p.createdBy and p.createdBy not in data.get("members", [])` appends the
owner only when `createdBy` is truthy (non-empty). -/
def create_project (db : DB) (p : ProjectIn) : Option ProjectDoc × DB :=
  let members1 :=
    if p.createdBy ≠ "" ∧ p.createdBy ∉ p.members then p.members ++ [p.createdBy]
    else p.members
  let newDoc : ProjectDoc :=
    { objId := db.nextId, title := p.title, description := p.description,
      category := p.category, tags := p.tags, attachments := p.attachments,
      createdBy := p.createdBy, members := members1, type := p.type,
      created_at := db.clock, updated_at := db.clock }
  let db2 : DB := { db with projects := db.projects ++ [newDoc],
                            nextId := db.nextId + 1, clock := db.clock + 1 }
  (db2.projects.find? (fun d => d.objId == newDoc.objId), db2)

/-- The `$or` conjunct of `list_projects` for a truthy `q`: a
case-insensitive regex match on title, description or any tag (a falsy —
absent or empty — parameter imposes no constraint). -/
def qGate (q : Option String) (pr : ProjectDoc) : Bool :=
  match q with
  | some s =>
    if s == "" then true
    else regexSearchI s pr.title || regexSearchI s pr.description ||
         pr.tags.any (fun t => regexSearchI s t)
  | none => true

/-- The `category` conjunct of `list_projects`: the supplied value wrapped
in anchors, as a case-insensitive regex. -/
def catGate (category : Option String) (pr : ProjectDoc) : Bool :=
  match category with
  | some s => if s == "" then true else regexSearchI ("^" ++ s ++ "$") pr.category
  | none => true

/-- The `interest` conjunct of `list_projects`: a case-insensitive regex
match against any tag. -/
def intGate (interest : Option String) (pr : ProjectDoc) : Bool :=
  match interest with
  | some s => if s == "" then true else pr.tags.any (fun t => regexSearchI s t)
  | none => true

/-- The `creator` conjunct of `list_projects`: exact equality with
`createdBy`. -/
def creGate (creator : Option String) (pr : ProjectDoc) : Bool :=
  match creator with
  | some s => if s == "" then true else pr.createdBy == s
  | none => true

/-- The Mongo filter built by `list_projects`: the logical AND of the four
conjuncts contributed by the truthy query parameters. -/
def projFilter (q category interest creator : Option String) (pr : ProjectDoc) : Bool :=
  qGate q pr && catGate category pr && intGate interest pr && creGate creator pr

/-- Descending sort key of `list_projects` (`sort("updated_at", -1)`). -/
def updGE (a b : ProjectDoc) : Prop := b.updated_at ≤ a.updated_at

instance : DecidableRel updGE := fun a b => Nat.decLe b.updated_at a.updated_at

/-- `GET /api/projects` — `list_projects` (read-only). -/
def list_projects (db : DB) (q category interest creator : Option String) :
    List ProjectDoc :=
  List.insertionSort updGE (db.projects.filter (projFilter q category interest creator))

/-- `DELETE /api/projects/{project_id}` — `delete_project`.  The ownership
guard `if userId and pr.get("createdBy") != userId` only fires for a truthy
(non-empty) `userId`; the cascade removes the chat messages and
collaboration requests whose stored `projectId` equals the raw path
parameter. -/
def delete_project (db : DB) (project_id : String) (userId : Option String) :
    Except HTTPError Bool × DB :=
  match decodeOid project_id with
  | none => (Except.error ⟨400, "Invalid id format"⟩, db)
  | some n =>
    match db.projects.find? (fun x => x.objId == n) with
    | none => (Except.error ⟨404, "Project not found"⟩, db)
    | some pr =>
      let forbidden : Bool :=
        match userId with
        | some uid => (!(uid == "")) && (!(pr.createdBy == uid))
        | none => false
      if forbidden then (Except.error ⟨403, "Only owner can delete"⟩, db)
      else
        (Except.ok true,
         { db with projects := deleteFirst (fun x => x.objId == pr.objId) db.projects,
                   chats := db.chats.filter (fun m => !(m.projectId == project_id)),
                   creqs := db.creqs.filter (fun r => !(r.projectId == project_id)) })

/-- Descending sort key of `get_chat` (`sort("timestamp", -1)`). -/
def tsGE (a b : ChatDoc) : Prop := b.timestamp ≤ a.timestamp

instance : DecidableRel tsGE := fun a b => Nat.decLe b.timestamp a.timestamp

/-- `GET /api/projects/{project_id}/chat` — `get_chat` (read-only): fetch
newest-first up to the limit, then return in chronological order. -/
def get_chat (db : DB) (project_id : String) (limit : Nat) : List ChatDoc :=
  ((List.insertionSort tsGE
      (db.chats.filter (fun m => m.projectId == project_id))).take limit).reverse

/-- The canned content of the simulated bot reply in `post_chat`. -/
def botContent : String :=
  "Great question! Let\x27s capture tasks for this and assign owners."

/-- `POST /api/projects/{project_id}/chat` — `post_chat`. -/
def post_chat (db : DB) (project_id : String) (msg : ChatIn) : Option ChatDoc × DB :=
  let m : ChatDoc :=
    { objId := db.nextId, projectId := project_id, senderId := msg.senderId,
      content := msg.content, timestamp := db.clock }
  let db2 : DB := { db with chats := db.chats ++ [m],
                            nextId := db.nextId + 1, clock := db.clock + 1 }
  let inserted := db2.chats.find? (fun d => d.objId == m.objId)
  if msg.content ≠ "" ∧ endsWithQmark (pyStrip msg.content) then
    let bot : ChatDoc :=
      { objId := db2.nextId, projectId := project_id, senderId := "sim-bot",
        content := botContent, timestamp := db2.clock }
    (inserted, { db2 with chats := db2.chats ++ [bot],
                          nextId := db2.nextId + 1, clock := db2.clock + 1 })
  else
    (inserted, db2)

/-- The Mongo filter of `request_collab`: a pending request of the same
sender for the same project. -/
def pendPred (project_id senderUserId : String) (x : ReqDoc) : Bool :=
  x.projectId == project_id && x.senderUserId == senderUserId && x.status == "pending"

/-- `POST /api/projects/{project_id}/requests` — `request_collab`.  The
`projectId` field of the body is ignored; the path parameter is used. -/
def request_collab (db : DB) (project_id : String) (r : RequestIn) :
    Option ReqDoc × DB :=
  match db.creqs.find? (pendPred project_id r.senderUserId) with
  | some existing => (some existing, db)
  | none =>
    let newDoc : ReqDoc :=
      { objId := db.nextId, projectId := project_id,
        senderUserId := r.senderUserId, status := "pending",
        createdAt := db.clock }
    let db2 : DB := { db with creqs := db.creqs ++ [newDoc],
                              nextId := db.nextId + 1, clock := db.clock + 1 }
    (db2.creqs.find? (fun d => d.objId == newDoc.objId), db2)

/-- `POST /api/requests/{request_id}/respond` — `respond_request`.  The
request status is written first; on `accepted` the referenced project is
then updated (a missing project makes that update a no-op, a malformed
stored `projectId` raises after the status write). -/
def respond_request (db : DB) (request_id : String) (body : RespondIn) :
    Except HTTPError String × DB :=
  match decodeOid request_id with
  | none => (Except.error ⟨400, "Invalid id format"⟩, db)
  | some n =>
    match db.creqs.find? (fun x => x.objId == n) with
    | none => (Except.error ⟨404, "Request not found"⟩, db)
    | some req =>
      if body.decision ≠ "accepted" ∧ body.decision ≠ "rejected" then
        (Except.error ⟨400, "Invalid decision"⟩, db)
      else
        let setStatus : ReqDoc → ReqDoc := fun x => { x with status := body.decision }
        let db1 : DB :=
          { db with creqs := updateFirst (fun x => x.objId == req.objId) setStatus db.creqs }
        if body.decision == "accepted" then
          match decodeOid req.projectId with
          | none => (Except.error ⟨400, "Invalid id format"⟩, db1)
          | some pn =>
            let addMem : ProjectDoc → ProjectDoc := fun x =>
              { x with members := addToSet req.senderUserId x.members, updated_at := db1.clock }
            let db2 : DB :=
              { db1 with projects := updateFirst (fun x => x.objId == pn) addMem db1.projects,
                         clock := db1.clock + 1 }
            (Except.ok body.decision, db2)
        else (Except.ok body.decision, db1)

/-! ### Helper lemmas about the store primitives -/

theorem updateFirst_length (p : α → Bool) (f : α → α) (l : List α) :
    (updateFirst p f l).length = l.length := by
  induction l with
  | nil => rfl
  | cons x xs ih => simp only [updateFirst]; split <;> simp [ih]

theorem find?_exists_of_mem (p : α → Bool) (l : List α) (a : α)
    (ha : a ∈ l) (hpa : p a = true) :
    ∃ x, l.find? p = some x ∧ p x = true := by
  have hs : (l.find? p).isSome := List.find?_isSome.mpr ⟨a, ha, hpa⟩
  cases hfx : l.find? p with
  | none => rw [hfx] at hs; simp at hs
  | some x => exact ⟨x, rfl, List.find?_some hfx⟩

theorem find?_append_none (p : α → Bool) (l1 l2 : List α)
    (h : l1.find? p = none) : (l1 ++ l2).find? p = l2.find? p := by
  rw [List.find?_append, h, Option.none_or]

theorem find?_cons_pos (p : α → Bool) (a : α) (l : List α) (h : p a = true) :
    (a :: l).find? p = some a := List.find?_cons_of_pos l h

theorem find?_cons_neg (p : α → Bool) (a : α) (l : List α) (h : p a = false) :
    (a :: l).find? p = l.find? p := List.find?_cons_of_neg l (by simp [h])

theorem updateFirst_cons_pos (p : α → Bool) (f : α → α) (a : α) (l : List α)
    (h : p a = true) : updateFirst p f (a :: l) = f a :: l := by
  simp [updateFirst, h]

theorem updateFirst_cons_neg (p : α → Bool) (f : α → α) (a : α) (l : List α)
    (h : p a = false) : updateFirst p f (a :: l) = a :: updateFirst p f l := by
  simp [updateFirst, h]

theorem find?_updateFirst_self (p : α → Bool) (f : α → α) (l : List α) (x : α)
    (hfind : l.find? p = some x) (hpres : ∀ y, p (f y) = p y) :
    (updateFirst p f l).find? p = some (f x) := by
  induction l with
  | nil => simp at hfind
  | cons a as ih =>
    cases hpa : p a with
    | true =>
      rw [find?_cons_pos p a as hpa] at hfind
      cases hfind
      rw [updateFirst_cons_pos p f x as hpa,
          find?_cons_pos p (f x) as (by rw [hpres]; exact hpa)]
    | false =>
      rw [find?_cons_neg p a as hpa] at hfind
      rw [updateFirst_cons_neg p f a as hpa, find?_cons_neg p a _ hpa]
      exact ih hfind

theorem find?_updateFirst_email (q : UserDoc → Bool) (f : UserDoc → UserDoc)
    (hf : ∀ y, (f y).email = y.email) (hg : ∀ y, (f y).objId = y.objId)
    (e : String) (l : List UserDoc) (x : UserDoc)
    (hx : l.find? (fun d => d.email == e) = some x) :
    ∃ y, (updateFirst q f l).find? (fun d => d.email == e) = some y ∧
      y.objId = x.objId := by
  induction l with
  | nil => simp at hx
  | cons a as ih =>
    cases hea : a.email == e with
    | true =>
      rw [find?_cons_pos (fun d => d.email == e) a as hea] at hx
      cases hx
      cases hqa : q x with
      | true =>
        rw [updateFirst_cons_pos q f x as hqa]
        exact ⟨f x, find?_cons_pos (fun d => d.email == e) (f x) as
          (by show ((f x).email == e) = true; rw [hf x]; exact hea), hg x⟩
      | false =>
        rw [updateFirst_cons_neg q f x as hqa]
        exact ⟨x, find?_cons_pos (fun d => d.email == e) x _ hea, rfl⟩
    | false =>
      rw [find?_cons_neg (fun d => d.email == e) a as hea] at hx
      cases hqa : q a with
      | true =>
        rw [updateFirst_cons_pos q f a as hqa]
        rw [find?_cons_neg (fun d => d.email == e) (f a) as
          (by show ((f a).email == e) = false; rw [hf a]; exact hea)]
        exact ⟨x, hx, rfl⟩
      | false =>
        rw [updateFirst_cons_neg q f a as hqa]
        rw [find?_cons_neg (fun d => d.email == e) a _ hea]
        exact ih hx

/-! ### C1 — login-or-create is idempotent on the email key -/

/-- The document inserted by the create path of `create_or_login_user`. -/
def newUserDoc (db : DB) (u : UserIn) : UserDoc :=
  { objId := db.nextId, username := u.username, email := u.email,
    emailVerified := u.emailVerified, profilePic := u.profilePic,
    companyName := u.companyName, role := u.role, linkedIn := u.linkedIn,
    interests := u.interests, created_at := db.clock, updated_at := db.clock }

theorem create_or_login_found (db : DB) (u : UserIn) (ex : UserDoc)
    (hex : db.users.find? (fun d => d.email == u.email) = some ex) :
    ∃ d, create_or_login_user db u =
      (some d,
       { db with users := updateFirst (fun x => x.objId == ex.objId)
                   (setLoginFields u db.clock) db.users,
                 clock := db.clock + 1 }) ∧
      d.objId = ex.objId := by
  obtain ⟨x0, hx0, hx0p⟩ := find?_exists_of_mem (fun d => d.objId == ex.objId)
    db.users ex (List.mem_of_find?_eq_some hex) (by simp)
  have hx0id : x0.objId = ex.objId := by simpa using hx0p
  refine ⟨setLoginFields u db.clock x0, ?_, ?_⟩
  · simp only [create_or_login_user, hex]
    have hstep := find?_updateFirst_self (fun d => d.objId == ex.objId)
      (setLoginFields u db.clock) db.users x0 hx0 (fun y => rfl)
    rw [hstep]
  · show x0.objId = ex.objId
    exact hx0id

theorem create_or_login_notfound (db : DB) (u : UserIn)
    (hex : db.users.find? (fun d => d.email == u.email) = none) :
    ∃ d, create_or_login_user db u =
      (some d,
       { db with users := db.users ++ [newUserDoc db u],
                 nextId := db.nextId + 1, clock := db.clock + 1 }) ∧
      d.objId = db.nextId := by
  obtain ⟨d, hd, hdp⟩ := find?_exists_of_mem (fun x => x.objId == db.nextId)
    (db.users ++ [newUserDoc db u]) (newUserDoc db u) (by simp) (by simp [newUserDoc])
  refine ⟨d, ?_, by simpa using hdp⟩
  simp only [create_or_login_user, hex]
  exact congrArg (fun o => (o, _)) hd

/-- C1: for every valid create-user payload, calling `create_or_login_user`
(POST /api/users) twice with the same email returns a document with the
same id both times: the second call takes the update path on the existing
document and inserts no new user (the user count does not change). -/
theorem create_or_login_idempotent (db : DB) (u1 u2 : UserIn)
    (hemail : u1.email = u2.email) :
    ∃ d1 d2 : UserDoc,
      (create_or_login_user db u1).1 = some d1 ∧
      (create_or_login_user (create_or_login_user db u1).2 u2).1 = some d2 ∧
      d2.objId = d1.objId ∧
      ((create_or_login_user (create_or_login_user db u1).2 u2).2).users.length
        = ((create_or_login_user db u1).2).users.length := by
  cases hex : db.users.find? (fun d => d.email == u1.email) with
  | some ex =>
    obtain ⟨d1, hc1, hid1⟩ := create_or_login_found db u1 ex hex
    have hex2base : db.users.find? (fun d => d.email == u2.email) = some ex := by
      rw [← hemail]; exact hex
    obtain ⟨ex2, hfind2, hex2id⟩ := find?_updateFirst_email
      (fun x => x.objId == ex.objId) (setLoginFields u1 db.clock)
      (fun y => rfl) (fun y => rfl) u2.email db.users ex hex2base
    rw [hc1]
    obtain ⟨d2, hc2, hid2⟩ := create_or_login_found
      { db with users := updateFirst (fun x => x.objId == ex.objId)
                  (setLoginFields u1 db.clock) db.users,
                clock := db.clock + 1 } u2 ex2 hfind2
    dsimp only
    rw [hc2]
    refine ⟨d1, d2, rfl, rfl, ?_, ?_⟩
    · rw [hid2, hex2id, ← hid1]
    · show (updateFirst (fun x : UserDoc => x.objId == ex2.objId) _ _).length = _
      rw [updateFirst_length]
  | none =>
    obtain ⟨d1, hc1, hid1⟩ := create_or_login_notfound db u1 hex
    have hexnone2 : db.users.find? (fun d => d.email == u2.email) = none := by
      rw [← hemail]; exact hex
    have hfind2 : (db.users ++ [newUserDoc db u1]).find? (fun d => d.email == u2.email)
        = some (newUserDoc db u1) := by
      rw [find?_append_none _ _ _ hexnone2]
      exact find?_cons_pos _ _ _ (by simp [newUserDoc, hemail])
    rw [hc1]
    obtain ⟨d2, hc2, hid2⟩ := create_or_login_found
      { db with users := db.users ++ [newUserDoc db u1],
                nextId := db.nextId + 1, clock := db.clock + 1 } u2
      (newUserDoc db u1) hfind2
    dsimp only
    rw [hc2]
    refine ⟨d1, d2, rfl, rfl, ?_, ?_⟩
    · rw [hid2, hid1]; rfl
    · show (updateFirst (fun x : UserDoc => x.objId == (newUserDoc db u1).objId) _ _).length = _
      rw [updateFirst_length]

/-- An empty store, used by several concrete instantiations below. -/
def emptyDB : DB := { users := [], projects := [], chats := [], creqs := [], nextId := 0, clock := 0 }

/-- A concrete login payload. -/
def w1u : UserIn :=
  { username := "ava", email := "ava@example.com", emailVerified := some true,
    profilePic := none, companyName := none, role := some "student",
    linkedIn := none, interests := ["AI"] }

/-- Witness for C1: the theorem applied at a concrete store and payload. -/
theorem create_or_login_idempotent_witness :
    ∃ d1 d2 : UserDoc,
      (create_or_login_user emptyDB w1u).1 = some d1 ∧
      (create_or_login_user (create_or_login_user emptyDB w1u).2 w1u).1 = some d2 ∧
      d2.objId = d1.objId ∧
      ((create_or_login_user (create_or_login_user emptyDB w1u).2 w1u).2).users.length
        = ((create_or_login_user emptyDB w1u).2).users.length :=
  create_or_login_idempotent emptyDB w1u w1u rfl

/-! ### C2 — createdBy as a member after project creation -/

/-- The document inserted by `create_project`. -/
def newProjectDoc (db : DB) (p : ProjectIn) : ProjectDoc :=
  { objId := db.nextId, title := p.title, description := p.description,
    category := p.category, tags := p.tags, attachments := p.attachments,
    createdBy := p.createdBy,
    members := if p.createdBy ≠ "" ∧ p.createdBy ∉ p.members
               then p.members ++ [p.createdBy] else p.members,
    type := p.type, created_at := db.clock, updated_at := db.clock }

/-- A create-project payload with an empty `createdBy`. -/
def c2in : ProjectIn :=
  { title := "t", description := "d", category := "c", tags := [],
    attachments := [], createdBy := "", members := [], type := some "solo" }

/-- The document stored for `c2in` on the empty store. -/
def c2doc : ProjectDoc :=
  { objId := 0, title := "t", description := "d", category := "c", tags := [],
    attachments := [], createdBy := "", members := [], type := some "solo",
    created_at := 0, updated_at := 0 }

/-- C2 counterexample: for the payload with `createdBy` equal to the empty
string (a value Python treats as falsy, so the guard in `create_project`
skips the append), the stored and returned document does not contain
`createdBy` in its members list. -/
theorem create_project_claim_false :
    (create_project emptyDB c2in).1 = some c2doc ∧
    c2doc.createdBy ∉ c2doc.members := by
  exact ⟨rfl, by decide⟩

/-- C2 (amended): for every input payload whose `createdBy` is non-empty,
the project document returned (and stored) immediately after creation has
`createdBy` as an element of its members list, whether or not the input
members list already contains it; input members are preserved. -/
theorem create_project_owner_member (db : DB) (p : ProjectIn)
    (hcb : p.createdBy ≠ "")
    (hWF : ∀ x ∈ db.projects, x.objId < db.nextId) :
    create_project db p =
      (some (newProjectDoc db p),
       { db with projects := db.projects ++ [newProjectDoc db p],
                 nextId := db.nextId + 1, clock := db.clock + 1 }) ∧
    p.createdBy ∈ (newProjectDoc db p).members ∧
    ∀ x ∈ p.members, x ∈ (newProjectDoc db p).members := by
  have hpref : db.projects.find? (fun d => d.objId == db.nextId) = none := by
    rw [List.find?_eq_none]
    intro x hx
    have hlt := hWF x hx
    simp only [beq_iff_eq]
    omega
  have happ : (db.projects ++ [newProjectDoc db p]).find?
      (fun d => d.objId == db.nextId) = some (newProjectDoc db p) := by
    rw [find?_append_none _ _ _ hpref]
    exact find?_cons_pos _ _ _ (by simp [newProjectDoc])
  refine ⟨?_, ?_, ?_⟩
  · exact congrArg (fun o => (o, _)) happ
  · simp only [newProjectDoc]
    by_cases hm : p.createdBy ∈ p.members
    · simp [hm]
    · simp [hm, hcb]
  · intro x hx
    simp only [newProjectDoc]
    by_cases hm : p.createdBy ∈ p.members
    · simp [hm, hx]
    · simp only [hm, hcb, ne_eq, not_false_iff, and_true, if_pos]
      exact List.mem_append_left _ hx

/-- Witness for C2 (amended) at a concrete payload and store. -/
theorem create_project_owner_member_witness :
    create_project emptyDB { c2in with createdBy := "u9" } =
      (some (newProjectDoc emptyDB { c2in with createdBy := "u9" }),
       { emptyDB with
           projects := emptyDB.projects ++ [newProjectDoc emptyDB { c2in with createdBy := "u9" }],
           nextId := emptyDB.nextId + 1, clock := emptyDB.clock + 1 }) ∧
    ({ c2in with createdBy := "u9" } : ProjectIn).createdBy
        ∈ (newProjectDoc emptyDB { c2in with createdBy := "u9" }).members ∧
    ∀ x ∈ ({ c2in with createdBy := "u9" } : ProjectIn).members,
        x ∈ (newProjectDoc emptyDB { c2in with createdBy := "u9" }).members :=
  create_project_owner_member emptyDB { c2in with createdBy := "u9" }
    (by decide) (by decide)

/-! ### C3, C6, C10 — responding to a collaboration request -/

theorem mem_addToSet (v : String) (l : List String) : v ∈ addToSet v l := by
  by_cases h : v ∈ l
  · simp [addToSet, h]
  · simp [addToSet, h]

/-- C3: for every stored collaboration request, regardless of its current
status, responding `accepted` rewrites the stored request status to
`accepted` (first conjunct, which holds whether or not the referenced
project exists — the status write comes first and is independent), and,
when the referenced project exists, adds the sender to its members by
`$addToSet` and refreshes its `updated_at`. -/
theorem respond_accepted_spec (db : DB) (rid : String) (body : RespondIn)
    (hdec : body.decision = "accepted") (n : Nat) (hn : decodeOid rid = some n)
    (req : ReqDoc) (hreq : db.creqs.find? (fun x => x.objId == n) = some req) :
    ((respond_request db rid body).2.creqs.find? (fun x => x.objId == n)
        = some { req with status := "accepted" }) ∧
    (∀ pn pr, decodeOid req.projectId = some pn →
      db.projects.find? (fun x => x.objId == pn) = some pr →
      (respond_request db rid body).2.projects.find? (fun x => x.objId == pn)
          = some { pr with members := addToSet req.senderUserId pr.members,
                           updated_at := db.clock } ∧
      req.senderUserId ∈ addToSet req.senderUserId pr.members ∧
      (respond_request db rid body).1 = Except.ok "accepted") := by
  obtain ⟨dec, own⟩ := body
  simp only at hdec
  subst hdec
  have hreqid : req.objId = n := by simpa using List.find?_some hreq
  have hreq2 : db.creqs.find? (fun x => x.objId == req.objId) = some req := by
    rw [hreqid]; exact hreq
  have hstat0 := find?_updateFirst_self (fun x => x.objId == req.objId)
    (fun x => { x with status := "accepted" }) db.creqs req hreq2 (fun y => rfl)
  cases hpid : decodeOid req.projectId with
  | none =>
    refine ⟨?_, ?_⟩
    · simp only [respond_request, hn, hreq, hpid]
      rw [if_neg (by simp), if_pos (by decide)]
      dsimp only
      rw [← hreqid]
      exact hstat0
    · intro pn pr h1 h2
      cases h1
  | some pn0 =>
    refine ⟨?_, ?_⟩
    · simp only [respond_request, hn, hreq, hpid]
      rw [if_neg (by simp), if_pos (by decide)]
      dsimp only
      rw [← hreqid]
      exact hstat0
    · intro pn pr h1 h2
      cases h1
      have hproj := find?_updateFirst_self (fun x => x.objId == pn0)
        (fun x => { x with members := addToSet req.senderUserId x.members,
                           updated_at := db.clock }) db.projects pr h2 (fun y => rfl)
      refine ⟨?_, mem_addToSet _ _, ?_⟩
      · simp only [respond_request, hn, hreq, hpid]
        rw [if_neg (by simp), if_pos (by decide)]
        exact hproj
      · simp only [respond_request, hn, hreq, hpid]
        rw [if_neg (by simp), if_pos (by decide)]

/-- A store with one pending request and its project, for the respond
witnesses. -/
def w3req : ReqDoc :=
  { objId := 0, projectId := "000000000000000000000001", senderUserId := "alice",
    status := "pending", createdAt := 0 }

/-- The project referenced by `w3req`. -/
def w3proj : ProjectDoc :=
  { objId := 1, title := "t", description := "d", category := "c", tags := [],
    attachments := [], createdBy := "bob", members := ["bob"], type := some "solo",
    created_at := 0, updated_at := 0 }

/-- The store holding `w3req` and `w3proj`. -/
def w3db : DB :=
  { users := [], projects := [w3proj], chats := [], creqs := [w3req],
    nextId := 2, clock := 7 }

/-- Witness for C3 at a concrete store, request and project. -/
theorem respond_accepted_spec_witness :
    ((respond_request w3db "000000000000000000000000" ⟨"accepted", none⟩).2.creqs.find?
        (fun x => x.objId == 0) = some { w3req with status := "accepted" }) ∧
    ((respond_request w3db "000000000000000000000000" ⟨"accepted", none⟩).2.projects.find?
        (fun x => x.objId == 1)
      = some { w3proj with members := addToSet w3req.senderUserId w3proj.members,
                           updated_at := w3db.clock }) ∧
    w3req.senderUserId ∈ addToSet w3req.senderUserId w3proj.members ∧
    (respond_request w3db "000000000000000000000000" ⟨"accepted", none⟩).1
        = Except.ok "accepted" := by
  have h := respond_accepted_spec w3db "000000000000000000000000" ⟨"accepted", none⟩
    rfl 0 (by rfl) w3req (by rfl)
  have h2 := h.2 1 w3proj (by rfl) (by rfl)
  exact ⟨h.1, h2.1, h2.2.1, h2.2.2⟩

/-- C6: responding with a decision outside the enum on an existing request
fails with HTTP 400 "Invalid decision" and leaves the entire store — in
particular the stored request's status and the referenced project —
unchanged: the decision is validated before any write. -/
theorem respond_invalid_decision (db : DB) (rid : String) (body : RespondIn)
    (n : Nat) (hn : decodeOid rid = some n)
    (req : ReqDoc) (hreq : db.creqs.find? (fun x => x.objId == n) = some req)
    (h1 : body.decision ≠ "accepted") (h2 : body.decision ≠ "rejected") :
    respond_request db rid body = (Except.error ⟨400, "Invalid decision"⟩, db) := by
  simp only [respond_request, hn, hreq]
  rw [if_pos ⟨h1, h2⟩]

/-- Witness for C6 at a concrete store and decision. -/
theorem respond_invalid_decision_witness :
    respond_request w3db "000000000000000000000000" ⟨"maybe", none⟩
      = (Except.error ⟨400, "Invalid decision"⟩, w3db) :=
  respond_invalid_decision w3db "000000000000000000000000" ⟨"maybe", none⟩
    0 (by rfl) w3req (by rfl) (by decide) (by decide)

/-- C10: responding to a well-formed request id that is absent from the
store fails with HTTP 404 "Request not found" for every decision string,
valid or invalid: the existence lookup precedes decision validation. -/
theorem respond_missing_not_found (db : DB) (rid : String) (body : RespondIn)
    (n : Nat) (hn : decodeOid rid = some n)
    (hnone : db.creqs.find? (fun x => x.objId == n) = none) :
    respond_request db rid body = (Except.error ⟨404, "Request not found"⟩, db) := by
  simp only [respond_request, hn, hnone]

/-- Witness for C10 at a concrete store and an invalid decision string. -/
theorem respond_missing_not_found_witness :
    respond_request emptyDB "00000000000000000000000a" ⟨"bogus", none⟩
      = (Except.error ⟨404, "Request not found"⟩, emptyDB) :=
  respond_missing_not_found emptyDB "00000000000000000000000a" ⟨"bogus", none⟩
    10 (by rfl) (by rfl)

/-! ### C4 — idempotent collaboration-request submission -/

/-- The document inserted by `request_collab`. -/
def newReqDoc (db : DB) (project_id senderUserId : String) : ReqDoc :=
  { objId := db.nextId, projectId := project_id, senderUserId := senderUserId,
    status := "pending", createdAt := db.clock }

/-- C4: if a pending request already exists for the exact
(projectId, senderUserId) pair, `request_collab` returns it unchanged and
inserts nothing; if no pending request exists for the pair — however many
accepted or rejected ones do — it inserts and returns a new request with
status `pending` and `createdAt` equal to the current clock. -/
theorem request_collab_idempotent (db : DB) (pid : String) (r : RequestIn) :
    (∀ ex, db.creqs.find? (pendPred pid r.senderUserId) = some ex →
       request_collab db pid r = (some ex, db) ∧ ex.status = "pending") ∧
    (db.creqs.find? (pendPred pid r.senderUserId) = none →
     (∀ x ∈ db.creqs, x.objId < db.nextId) →
       request_collab db pid r =
         (some (newReqDoc db pid r.senderUserId),
          { db with creqs := db.creqs ++ [newReqDoc db pid r.senderUserId],
                    nextId := db.nextId + 1, clock := db.clock + 1 }) ∧
       (newReqDoc db pid r.senderUserId).status = "pending" ∧
       (newReqDoc db pid r.senderUserId).createdAt = db.clock) := by
  constructor
  · intro ex hex
    have hp := List.find?_some hex
    simp only [pendPred, Bool.and_eq_true, beq_iff_eq] at hp
    refine ⟨?_, hp.2⟩
    simp only [request_collab, hex]
  · intro hnone hWF
    have hpref : db.creqs.find? (fun d => d.objId == db.nextId) = none := by
      rw [List.find?_eq_none]
      intro x hx
      have := hWF x hx
      simp only [beq_iff_eq]
      omega
    have happ : (db.creqs ++ [newReqDoc db pid r.senderUserId]).find?
        (fun d => d.objId == db.nextId) = some (newReqDoc db pid r.senderUserId) := by
      rw [find?_append_none _ _ _ hpref]
      exact find?_cons_pos _ _ _ (by simp [newReqDoc])
    refine ⟨?_, rfl, rfl⟩
    simp only [request_collab, hnone]
    exact congrArg (fun o => (o, _)) happ

/-- Witness for C4: the insert branch at a concrete store and payload. -/
theorem request_collab_idempotent_witness :
    request_collab emptyDB "p1" ⟨"p1", "alice"⟩ =
      (some (newReqDoc emptyDB "p1" "alice"),
       { emptyDB with creqs := emptyDB.creqs ++ [newReqDoc emptyDB "p1" "alice"],
                      nextId := emptyDB.nextId + 1, clock := emptyDB.clock + 1 }) := by
  have h := (request_collab_idempotent emptyDB "p1" ⟨"p1", "alice"⟩).2 (by rfl) (by decide)
  exact h.1

/-! ### C5 — project deletion with cascade -/

/-- A stored project with numeric id 10 (canonical id string
"00000000000000000000000a"). -/
def c5proj : ProjectDoc :=
  { objId := 10, title := "t", description := "d", category := "c", tags := [],
    attachments := [], createdBy := "owner1", members := ["owner1"],
    type := some "solo", created_at := 0, updated_at := 0 }

/-- A chat message stored under the canonical id string of `c5proj`. -/
def c5chat : ChatDoc :=
  { objId := 11, projectId := "00000000000000000000000a", senderId := "s",
    content := "hi", timestamp := 0 }

/-- The store holding `c5proj` and `c5chat`. -/
def c5db : DB :=
  { users := [], projects := [c5proj], chats := [c5chat], creqs := [],
    nextId := 12, clock := 0 }

/-- C5 counterexample.  First part: deleting via the equally well-formed
uppercase id string "00000000000000000000000A" (which decodes to the same
ObjectId) succeeds and removes the project, yet the chat message whose
`projectId` equals the deleted project's id string survives, because the
cascade compares against the raw path parameter.  Second part: supplying
the requester id "" (which differs from `createdBy` "owner1") does not
fail with Forbidden — the Python truthiness guard skips the ownership
check for an empty string — contradicting the claimed Forbidden clause. -/
theorem delete_project_claim_false :
    ((delete_project c5db "00000000000000000000000A" none).1 = Except.ok true ∧
     (delete_project c5db "00000000000000000000000A" none).2.projects = [] ∧
     (delete_project c5db "00000000000000000000000A" none).2.chats = [c5chat] ∧
     c5chat.projectId = encodeOid c5proj.objId) ∧
    (delete_project c5db "00000000000000000000000a" (some "")).1 = Except.ok true := by
  exact ⟨⟨rfl, rfl, rfl, rfl⟩, rfl⟩

/-- C5 (amended): for a well-formed id string, `delete_project` fails with
NotFound when no project with that id exists; fails with Forbidden when a
non-empty requester id is supplied that differs from the project's
`createdBy` (no ownership check when the requester id is omitted or
empty); and on success deletes the project together with every chat
message and collaboration request whose `projectId` equals the id string
supplied in the request — which coincides with the deleted project's
canonical id string whenever the supplied id is canonical. -/
theorem delete_project_amended (db : DB) (pid : String) (uid? : Option String)
    (n : Nat) (hn : decodeOid pid = some n) :
    (db.projects.find? (fun x => x.objId == n) = none →
       delete_project db pid uid? = (Except.error ⟨404, "Project not found"⟩, db)) ∧
    (∀ pr uid, db.projects.find? (fun x => x.objId == n) = some pr →
       uid? = some uid → uid ≠ "" → pr.createdBy ≠ uid →
       delete_project db pid uid? = (Except.error ⟨403, "Only owner can delete"⟩, db)) ∧
    (∀ pr, db.projects.find? (fun x => x.objId == n) = some pr →
       (∀ uid, uid? = some uid → uid ≠ "" → pr.createdBy = uid) →
       delete_project db pid uid? =
         (Except.ok true,
          { db with projects := deleteFirst (fun x => x.objId == pr.objId) db.projects,
                    chats := db.chats.filter (fun m => !(m.projectId == pid)),
                    creqs := db.creqs.filter (fun rq => !(rq.projectId == pid)) }) ∧
       (pid = encodeOid pr.objId →
         (∀ m ∈ (delete_project db pid uid?).2.chats,
            m.projectId ≠ encodeOid pr.objId) ∧
         (∀ rq ∈ (delete_project db pid uid?).2.creqs,
            rq.projectId ≠ encodeOid pr.objId))) := by
  refine ⟨?_, ?_, ?_⟩
  · intro h
    simp only [delete_project, hn, h]
  · intro pr uid hpr huid hne1 hne2
    simp only [delete_project, hn, hpr, huid]
    rw [if_pos (by simp [hne1, fun h => hne2 h])]
  · intro pr hpr hok
    have hdel : delete_project db pid uid? =
        (Except.ok true,
         { db with projects := deleteFirst (fun x => x.objId == pr.objId) db.projects,
                   chats := db.chats.filter (fun m => !(m.projectId == pid)),
                   creqs := db.creqs.filter (fun rq => !(rq.projectId == pid)) }) := by
      cases uid? with
      | none =>
        simp only [delete_project, hn, hpr]
        rw [if_neg (by simp)]
      | some uid =>
        by_cases hu : uid = ""
        · simp only [delete_project, hn, hpr]
          rw [if_neg (by simp [hu])]
        · have h2 : pr.createdBy = uid := hok uid rfl hu
          simp only [delete_project, hn, hpr]
          rw [if_neg (by simp [h2])]
    refine ⟨hdel, ?_⟩
    intro hcanon
    rw [hdel]
    constructor
    · intro m hm
      have := (List.mem_filter.mp hm).2
      rw [← hcanon]
      simpa using this
    · intro rq hrq
      have := (List.mem_filter.mp hrq).2
      rw [← hcanon]
      simpa using this

/-- Witness for C5 (amended): successful owner-less deletion of `c5proj`
through its canonical id string. -/
theorem delete_project_amended_witness :
    delete_project c5db "00000000000000000000000a" none =
      (Except.ok true,
       { c5db with projects := deleteFirst (fun x => x.objId == c5proj.objId) c5db.projects,
                   chats := c5db.chats.filter (fun m => !(m.projectId == "00000000000000000000000a")),
                   creqs := c5db.creqs.filter (fun rq => !(rq.projectId == "00000000000000000000000a")) }) := by
  have h := (delete_project_amended c5db "00000000000000000000000a" none 10 (by rfl)).2.2
    c5proj (by rfl) (by intro uid huid; cases huid)
  exact h.1

/-! ### C7 — posting chat, with the bot auto-reply -/

/-- The user message inserted by `post_chat`. -/
def newChatDoc (db : DB) (project_id : String) (msg : ChatIn) : ChatDoc :=
  { objId := db.nextId, projectId := project_id, senderId := msg.senderId,
    content := msg.content, timestamp := db.clock }

/-- The synthetic bot message inserted by `post_chat` when the trimmed
content ends with a question mark. -/
def botChatDoc (db : DB) (project_id : String) : ChatDoc :=
  { objId := db.nextId + 1, projectId := project_id, senderId := "sim-bot",
    content := botContent, timestamp := db.clock + 1 }

/-- C7: `post_chat` inserts exactly one message with the current timestamp
and returns it; exactly when the trimmed content ends with a question mark
it additionally inserts one synthetic `sim-bot` message with the canned
content and its own later timestamp — so the stored message count for the
project grows by two in that case and by one otherwise, and the caller
receives only the originally posted message. -/
theorem post_chat_spec (db : DB) (pid : String) (msg : ChatIn)
    (hWF : ∀ c ∈ db.chats, c.objId < db.nextId) :
    (post_chat db pid msg).1 = some (newChatDoc db pid msg) ∧
    (endsWithQmark (pyStrip msg.content) = true →
       (post_chat db pid msg).2.chats
         = db.chats ++ [newChatDoc db pid msg, botChatDoc db pid]) ∧
    (endsWithQmark (pyStrip msg.content) = false →
       (post_chat db pid msg).2.chats = db.chats ++ [newChatDoc db pid msg]) ∧
    ((post_chat db pid msg).2.chats.filter (fun m => m.projectId == pid)).length
      = (db.chats.filter (fun m => m.projectId == pid)).length
        + (if endsWithQmark (pyStrip msg.content) then 2 else 1) := by
  have hfind : (db.chats ++ [newChatDoc db pid msg]).find?
      (fun d => d.objId == db.nextId) = some (newChatDoc db pid msg) := by
    have hpref : db.chats.find? (fun d => d.objId == db.nextId) = none := by
      rw [List.find?_eq_none]
      intro x hx
      have := hWF x hx
      simp only [beq_iff_eq]
      omega
    rw [find?_append_none _ _ _ hpref]
    exact find?_cons_pos _ _ _ (by simp [newChatDoc])
  by_cases hq : endsWithQmark (pyStrip msg.content) = true
  · have hne : msg.content ≠ "" := by
      intro h
      rw [h] at hq
      exact absurd hq (by decide)
    have hcalc : post_chat db pid msg =
        (some (newChatDoc db pid msg),
         { db with chats := (db.chats ++ [newChatDoc db pid msg]) ++ [botChatDoc db pid],
                   nextId := db.nextId + 2, clock := db.clock + 2 }) := by
      simp only [post_chat]
      rw [if_pos ⟨hne, hq⟩]
      exact congrArg (fun o => (o, _)) hfind
    rw [hcalc]
    refine ⟨rfl, fun _ => ?_, fun hf => ?_, ?_⟩
    · show (db.chats ++ [newChatDoc db pid msg]) ++ [botChatDoc db pid]
        = db.chats ++ [newChatDoc db pid msg, botChatDoc db pid]
      simp [List.append_assoc]
    · rw [hf] at hq
      exact Bool.noConfusion hq
    · rw [if_pos hq]
      show (((db.chats ++ [newChatDoc db pid msg]) ++ [botChatDoc db pid]).filter
        (fun m => m.projectId == pid)).length = _
      simp [List.filter_append, newChatDoc, botChatDoc]
  · have hqf : endsWithQmark (pyStrip msg.content) = false := by
      simpa using hq
    have hcalc : post_chat db pid msg =
        (some (newChatDoc db pid msg),
         { db with chats := db.chats ++ [newChatDoc db pid msg],
                   nextId := db.nextId + 1, clock := db.clock + 1 }) := by
      simp only [post_chat]
      rw [if_neg (fun hc => hq hc.2)]
      exact congrArg (fun o => (o, _)) hfind
    rw [hcalc]
    refine ⟨rfl, fun ht => absurd ht hq, fun _ => rfl, ?_⟩
    rw [if_neg hq]
    show ((db.chats ++ [newChatDoc db pid msg]).filter
      (fun m => m.projectId == pid)).length = _
    simp [List.filter_append, newChatDoc]

/-- Witness for C7: a question-ending message on the empty store yields the
original message plus the bot reply. -/
theorem post_chat_spec_witness :
    (post_chat emptyDB "p1" ⟨"hello?", "u"⟩).1
        = some (newChatDoc emptyDB "p1" ⟨"hello?", "u"⟩) ∧
    (post_chat emptyDB "p1" ⟨"hello?", "u"⟩).2.chats
        = emptyDB.chats ++ [newChatDoc emptyDB "p1" ⟨"hello?", "u"⟩, botChatDoc emptyDB "p1"] := by
  have h := post_chat_spec emptyDB "p1" ⟨"hello?", "u"⟩ (by decide)
  exact ⟨h.1, h.2.1 (by decide)⟩

/-! ### C8 — chat retrieval order -/

/-- C8: `get_chat` returns at most `limit` messages of the project, in
non-decreasing timestamp order, and they are the newest ones: the
project's remaining messages (`rest`) all have timestamps at most that of
every returned message, i.e. the handler fetches newest-first up to the
limit and reverses into chronological order. -/
theorem get_chat_spec (db : DB) (pid : String) (limit : Nat) :
    (get_chat db pid limit).length ≤ limit ∧
    List.Pairwise (fun a b => a.timestamp ≤ b.timestamp) (get_chat db pid limit) ∧
    ∃ rest : List ChatDoc,
      (db.chats.filter (fun m => m.projectId == pid)).Perm
        (get_chat db pid limit ++ rest) ∧
      ∀ m ∈ rest, ∀ kept ∈ get_chat db pid limit, m.timestamp ≤ kept.timestamp := by
  haveI : IsTotal ChatDoc tsGE := ⟨fun a b => Nat.le_total b.timestamp a.timestamp⟩
  haveI : IsTrans ChatDoc tsGE := ⟨fun a b c h1 h2 => Nat.le_trans h2 h1⟩
  simp only [get_chat]
  set fl := db.chats.filter (fun m => m.projectId == pid) with hfl
  set srt := List.insertionSort tsGE fl with hsrt
  have hsorted : List.Pairwise tsGE srt := List.sorted_insertionSort tsGE fl
  have hperm : srt.Perm fl := List.perm_insertionSort tsGE fl
  have hsplit : srt.take limit ++ srt.drop limit = srt := List.take_append_drop limit srt
  have hpw : List.Pairwise tsGE (srt.take limit ++ srt.drop limit) := by
    rw [hsplit]
    exact hsorted
  rw [List.pairwise_append] at hpw
  refine ⟨?_, ?_, srt.drop limit, ?_, ?_⟩
  · rw [List.length_reverse, List.length_take]
    exact min_le_left _ _
  · rw [List.pairwise_reverse]
    exact hpw.1
  · have h1 : ((srt.take limit).reverse ++ srt.drop limit).Perm (srt.take limit ++ srt.drop limit) :=
      (List.reverse_perm (srt.take limit)).append_right (srt.drop limit)
    have h2 : ((srt.take limit).reverse ++ srt.drop limit).Perm srt :=
      h1.trans (List.Perm.of_eq hsplit)
    exact (hperm.symm).trans h2.symm
  · intro m hm kept hkept
    exact hpw.2.2 kept (List.mem_reverse.mp hkept) m hm

/-- Witness for C8: the theorem applied at a concrete store and limit. -/
theorem get_chat_spec_witness :
    (get_chat c5db "00000000000000000000000a" 1).length ≤ 1 ∧
    List.Pairwise (fun a b => a.timestamp ≤ b.timestamp)
      (get_chat c5db "00000000000000000000000a" 1) ∧
    ∃ rest : List ChatDoc,
      (c5db.chats.filter (fun m => m.projectId == "00000000000000000000000a")).Perm
        (get_chat c5db "00000000000000000000000a" 1 ++ rest) ∧
      ∀ m ∈ rest, ∀ kept ∈ get_chat c5db "00000000000000000000000a" 1,
        m.timestamp ≤ kept.timestamp :=
  get_chat_spec c5db "00000000000000000000000a" 1

/-! ### C9 — project listing filters -/

/-- Case-insensitive prefix comparison (spec side). -/
def isPrefixCI : List Char → List Char → Bool
  | [], _ => true
  | _ :: _, [] => false
  | c :: cs, x :: xs => charIEq c x && isPrefixCI cs xs

/-- Case-insensitive substring occurrence (spec side). -/
def isSubstrCI : List Char → List Char → Bool
  | nd, [] => isPrefixCI nd []
  | nd, x :: xs => isPrefixCI nd (x :: xs) || isSubstrCI nd xs

/-- Modelled from the spec: "matches (case-insensitive substring)", the
claimed semantics of the `q` and `interest` filters. -/
def substrCI (needle hay : String) : Bool := isSubstrCI needle.toList hay.toList

/-- Case-insensitive equality of character lists (spec side). -/
def eqCI : List Char → List Char → Bool
  | [], [] => true
  | [], _ :: _ => false
  | _ :: _, [] => false
  | c :: cs, x :: xs => charIEq c x && eqCI cs xs

/-- Modelled from the spec: "matches case-insensitive exact (anchored)",
the claimed semantics of the `category` filter. -/
def exactCI (a b : String) : Bool := eqCI a.toList b.toList

/-- Modelled from the spec: the claimed `q` conjunct — a case-insensitive
literal substring of title OR description OR some tag. -/
def qGateSpec (q : Option String) (pr : ProjectDoc) : Bool :=
  match q with
  | some s => substrCI s pr.title || substrCI s pr.description ||
              pr.tags.any (fun t => substrCI s t)
  | none => true

/-- Modelled from the spec: the claimed `category` conjunct — a
case-insensitive anchored exact match. -/
def catGateSpec (category : Option String) (pr : ProjectDoc) : Bool :=
  match category with
  | some s => exactCI s pr.category
  | none => true

/-- Modelled from the spec: the claimed `interest` conjunct — a
case-insensitive literal substring of some tag. -/
def intGateSpec (interest : Option String) (pr : ProjectDoc) : Bool :=
  match interest with
  | some s => pr.tags.any (fun t => substrCI s t)
  | none => true

/-- Modelled from the spec: the claimed `creator` conjunct — an exact
match of `createdBy`. -/
def creGateSpec (creator : Option String) (pr : ProjectDoc) : Bool :=
  match creator with
  | some s => pr.createdBy == s
  | none => true

/-- Modelled from the spec: the claimed filter of C9, the logical AND of
the four conjuncts; an absent field imposes no constraint. -/
def specProjFilter (q category interest creator : Option String) (pr : ProjectDoc) : Bool :=
  qGateSpec q pr && catGateSpec category pr && intGateSpec interest pr &&
  creGateSpec creator pr

/-- A pattern string free of regex metacharacters. -/
def nonSpecial (s : String) : Prop := ∀ c ∈ s.toList, c ∉ specialChars

instance (s : String) : Decidable (nonSpecial s) :=
  List.decidableBAll (fun c => c ∉ specialChars) s.toList

theorem matchHere_lits (cs : List Char) (st : Bool) (l : List Char) :
    matchHere (cs.map Tok.lit) st l = isPrefixCI cs l := by
  induction cs generalizing st l with
  | nil => cases l <;> rfl
  | cons c cs ih =>
    cases l with
    | nil => rfl
    | cons x xs => simp [matchHere, isPrefixCI, ih]

theorem searchAux_lits (cs : List Char) (l : List Char) (st : Bool) :
    searchAux (cs.map Tok.lit) l st = isSubstrCI cs l := by
  induction l generalizing st with
  | nil => simp [searchAux, isSubstrCI, matchHere_lits]
  | cons x xs ih => simp [searchAux, isSubstrCI, matchHere_lits, ih]

theorem matchHere_anchored (cs : List Char) (st : Bool) (l : List Char)
    (hl : l.getLast? ≠ some '\n') :
    matchHere (cs.map Tok.lit ++ [Tok.eol]) st l = eqCI cs l := by
  induction cs generalizing st l with
  | nil =>
    cases l with
    | nil => rfl
    | cons x xs =>
      have hne : ((x :: xs : List Char) == ['\n']) = false := by
        rw [beq_eq_false_iff_ne]
        intro heq
        rw [heq] at hl
        exact hl rfl
      show (((x :: xs : List Char).isEmpty || (x :: xs : List Char) == ['\n'])
          && matchHere [] st (x :: xs)) = eqCI [] (x :: xs)
      rw [hne]
      rfl
  | cons c cs ih =>
    cases l with
    | nil => rfl
    | cons x xs =>
      have hxs : xs.getLast? ≠ some '\n' := by
        cases xs with
        | nil => simp
        | cons y ys =>
          rw [List.getLast?_cons_cons] at hl
          exact hl
      simp [matchHere, eqCI, ih _ _ hxs]

theorem searchAux_bol_false (ts : List Tok) (l : List Char) :
    searchAux (Tok.bol :: ts) l false = false := by
  induction l with
  | nil => rfl
  | cons x xs ih => simp [searchAux, matchHere, ih]

theorem searchAux_bol_true (ts : List Tok) (l : List Char) :
    searchAux (Tok.bol :: ts) l true = matchHere ts true l := by
  cases l with
  | nil => simp [searchAux, matchHere]
  | cons x xs => simp [searchAux, matchHere, searchAux_bol_false]

theorem parsePat_lits (cs : List Char) (h : ∀ c ∈ cs, c ∉ specialChars) :
    parsePat cs = some [cs.map Tok.lit] := by
  induction cs with
  | nil => rfl
  | cons c cs ih =>
    have hc : c ∉ specialChars := h c (by simp)
    have hrest := ih (fun x hx => h x (by simp [hx]))
    have hbar : (c == '|') = false := by
      rw [beq_eq_false_iff_ne]
      intro hceq
      exact hc (by rw [hceq]; decide)
    have hdot : (c == '.') = false := by
      rw [beq_eq_false_iff_ne]
      intro hceq
      exact hc (by rw [hceq]; decide)
    have hbol : (c == '^') = false := by
      rw [beq_eq_false_iff_ne]
      intro hceq
      exact hc (by rw [hceq]; decide)
    have heol : (c == '$') = false := by
      rw [beq_eq_false_iff_ne]
      intro hceq
      exact hc (by rw [hceq]; decide)
    have htok : tokOf? c = some (Tok.lit c) := by
      simp [tokOf?, hdot, hbol, heol, hc]
    simp [parsePat, hrest, hbar, htok]

theorem parsePat_append_eol (cs : List Char) (h : ∀ c ∈ cs, c ∉ specialChars) :
    parsePat (cs ++ ['$']) = some [cs.map Tok.lit ++ [Tok.eol]] := by
  induction cs with
  | nil => rfl
  | cons c cs ih =>
    have hc : c ∉ specialChars := h c (by simp)
    have hrest := ih (fun x hx => h x (by simp [hx]))
    have hbar : (c == '|') = false := by
      rw [beq_eq_false_iff_ne]
      intro hceq
      exact hc (by rw [hceq]; decide)
    have hdot : (c == '.') = false := by
      rw [beq_eq_false_iff_ne]
      intro hceq
      exact hc (by rw [hceq]; decide)
    have hbol : (c == '^') = false := by
      rw [beq_eq_false_iff_ne]
      intro hceq
      exact hc (by rw [hceq]; decide)
    have heol : (c == '$') = false := by
      rw [beq_eq_false_iff_ne]
      intro hceq
      exact hc (by rw [hceq]; decide)
    have htok : tokOf? c = some (Tok.lit c) := by
      simp [tokOf?, hdot, hbol, heol, hc]
    simp [parsePat, hrest, hbar, htok]

theorem parsePat_anchored (cs : List Char) (h : ∀ c ∈ cs, c ∉ specialChars) :
    parsePat ('^' :: (cs ++ ['$'])) = some [Tok.bol :: (cs.map Tok.lit ++ [Tok.eol])] := by
  have hrest := parsePat_append_eol cs h
  simp [parsePat, hrest, tokOf?]

theorem regexSearchI_nonSpecial (pat s : String) (h : nonSpecial pat) :
    regexSearchI pat s = substrCI pat s := by
  simp only [regexSearchI, parsePat_lits pat.toList h, List.any_cons, List.any_nil,
    Bool.or_false, searchAux_lits, substrCI]

theorem regexSearchI_anchored (cat s : String) (h : nonSpecial cat)
    (hs : s.toList.getLast? ≠ some '\n') :
    regexSearchI ("^" ++ cat ++ "$") s = exactCI cat s := by
  have htl : ("^" ++ cat ++ "$").toList = '^' :: (cat.toList ++ ['$']) := by
    show ("^" ++ cat ++ "$").data = '^' :: (cat.data ++ ['$'])
    rw [String.data_append, String.data_append]
    rfl
  simp only [regexSearchI, htl, parsePat_anchored cat.toList h, List.any_cons,
    List.any_nil, Bool.or_false, searchAux_bol_true]
  exact matchHere_anchored cat.toList true s.toList hs

theorem substrCI_nil (hay : String) : substrCI "" hay = true := by
  simp only [substrCI]
  show isSubstrCI [] hay.toList = true
  induction hay.toList with
  | nil => rfl
  | cons x xs ih => simp [isSubstrCI, isPrefixCI, ih]

theorem projFilter_eq_spec (q c i cr : Option String)
    (hq : ∀ s, q = some s → nonSpecial s)
    (hc : ∀ s, c = some s → nonSpecial s ∧ s ≠ "")
    (hi : ∀ s, i = some s → nonSpecial s ∧ s ≠ "")
    (hcr : ∀ s, cr = some s → s ≠ "")
    (pr : ProjectDoc)
    (hnl : ∀ s, c = some s → pr.category.toList.getLast? ≠ some '\n') :
    projFilter q c i cr pr = specProjFilter q c i cr pr := by
  have e1 : qGate q pr = qGateSpec q pr := by
    cases q with
    | none => rfl
    | some s =>
      by_cases hs : s = ""
      · subst hs
        simp [qGate, qGateSpec, substrCI_nil]
      · have hns := hq s rfl
        simp only [qGate, qGateSpec]
        rw [if_neg (by simpa using hs)]
        simp only [regexSearchI_nonSpecial _ _ hns]
  have e2 : catGate c pr = catGateSpec c pr := by
    cases c with
    | none => rfl
    | some s =>
      obtain ⟨hns, hne⟩ := hc s rfl
      simp only [catGate, catGateSpec]
      rw [if_neg (by simpa using hne)]
      exact regexSearchI_anchored s pr.category hns (hnl s rfl)
  have e3 : intGate i pr = intGateSpec i pr := by
    cases i with
    | none => rfl
    | some s =>
      obtain ⟨hns, hne⟩ := hi s rfl
      simp only [intGate, intGateSpec]
      rw [if_neg (by simpa using hne)]
      exact congrArg _ (funext fun t => regexSearchI_nonSpecial s t hns)
  have e4 : creGate cr pr = creGateSpec cr pr := by
    cases cr with
    | none => rfl
    | some s =>
      simp only [creGate, creGateSpec]
      rw [if_neg (by simpa using hcr s rfl)]
  simp only [projFilter, specProjFilter]
  rw [e1, e2, e3, e4]

/-- A project whose title regex-matches "b.d" without containing it. -/
def c9proj : ProjectDoc :=
  { objId := 1, title := "bxd", description := "zz", category := "c", tags := [],
    attachments := [], createdBy := "u1", members := ["u1"], type := some "solo",
    created_at := 0, updated_at := 0 }

/-- The store holding `c9proj`. -/
def c9db : DB :=
  { users := [], projects := [c9proj], chats := [], creqs := [],
    nextId := 2, clock := 5 }

/-- C9 counterexample: with the free-text filter `q = "b.d"` the handler
returns the project titled "bxd" — the supplied value is passed to the
database as a regular-expression pattern, whose dot matches the letter x —
although "b.d" is not a case-insensitive literal substring of the
project's title, description or any tag.  The returned set therefore
differs from the claimed literal-substring filtered set. -/
theorem list_projects_claim_false :
    list_projects c9db (some "b.d") none none none = [c9proj] ∧
    specProjFilter (some "b.d") none none none c9proj = false := by
  exact ⟨by decide, by decide⟩

/-- C9 (amended): for every combination of supplied filter values that are
free of regex metacharacters (and, for `category`, `interest` and
`creator`, non-empty — Python treats an empty value as absent),
`list_projects` returns exactly the projects satisfying the logical AND of
the claimed filters — `q` a case-insensitive literal substring of title OR
description OR some tag, `category` a case-insensitive anchored exact
match, `interest` a case-insensitive literal substring of some tag,
`creator` an exact match of `createdBy`, an absent field imposing no
constraint — sorted by `updated_at` descending.  A value containing regex
metacharacters is instead interpreted as a regular-expression pattern;
and when a category filter is supplied, no stored project's category may
end in a newline (PCRE's `$` also matches just before one final newline,
so such a stored category additionally matches the anchored pattern
without it). -/
theorem list_projects_filters (db : DB) (q c i cr : Option String)
    (hq : ∀ s, q = some s → nonSpecial s)
    (hc : ∀ s, c = some s → nonSpecial s ∧ s ≠ "")
    (hi : ∀ s, i = some s → nonSpecial s ∧ s ≠ "")
    (hcr : ∀ s, cr = some s → s ≠ "")
    (hnl : ∀ s, c = some s → ∀ pr ∈ db.projects, pr.category.toList.getLast? ≠ some '\n') :
    (list_projects db q c i cr).Perm (db.projects.filter (specProjFilter q c i cr)) ∧
    List.Pairwise (fun a b => b.updated_at ≤ a.updated_at) (list_projects db q c i cr) := by
  haveI : IsTotal ProjectDoc updGE := ⟨fun a b => Nat.le_total b.updated_at a.updated_at⟩
  haveI : IsTrans ProjectDoc updGE := ⟨fun a b c h1 h2 => Nat.le_trans h2 h1⟩
  constructor
  · have hfeq : db.projects.filter (projFilter q c i cr)
        = db.projects.filter (specProjFilter q c i cr) :=
      List.filter_congr (fun pr hpr => projFilter_eq_spec q c i cr hq hc hi hcr pr
        (fun s hs => hnl s hs pr hpr))
    exact (List.perm_insertionSort updGE _).trans (List.Perm.of_eq hfeq)
  · exact List.sorted_insertionSort updGE _

/-- Witness for C9 (amended) at a concrete store and a metacharacter-free
filter. -/
theorem list_projects_filters_witness :
    (list_projects c9db (some "bxd") none none none).Perm
      (c9db.projects.filter (specProjFilter (some "bxd") none none none)) ∧
    List.Pairwise (fun a b => b.updated_at ≤ a.updated_at)
      (list_projects c9db (some "bxd") none none none) :=
  list_projects_filters c9db (some "bxd") none none none
    (by intro s hs; cases hs; decide)
    (by intro s hs; cases hs)
    (by intro s hs; cases hs)
    (by intro s hs; cases hs)
    (by intro s hs; cases hs)

end Backend
